import Mathlib

/-!
Verification of the `simple-tracing` profiler (`src/main.rs`).

The collector (`Instrumentor`) and the scope-guard timer
(`InstrumentationTimer`) are embedded as pure state-transition functions.
File I/O is made explicit: the contents of the currently open output file
are the `out` field of the state, `File::create` success is a boolean
parameter, and the list of paths successfully created/truncated is kept as
the ghost field `created`.  Wall-clock instants are natural numbers
counting microseconds, passed in at each point where the Rust code reads
the clock.
-/

/-- `ProfileResult` from `src/main.rs` (field `end` is a Lean keyword, so it
is called `end_` here): the event record a timer hands to the collector. -/
structure ProfileResult where
  name : String
  start : Int
  end_ : Int
  thread_id : Nat
  deriving DecidableEq

/-- `InstrumentationSession` from `src/main.rs`. -/
structure InstrumentationSession where
  name : String
  deriving DecidableEq

/-- The collector state (`Instrumentor` in `src/main.rs`).  `output_stream`
records whether the `Option<Mutex<File>>` is `Some`; `out` is the content of
the file it holds; `created` is the ghost list of filepaths successfully
passed to `File::create`. -/
structure Instrumentor where
  current_session : Option InstrumentationSession
  output_stream : Bool
  profile_count : Nat
  out : String
  created : List String
  deriving DecidableEq

/-- `Instrumentor::new`. -/
def Instrumentor.new : Instrumentor :=
  { current_session := none
    output_stream := false
    profile_count := 0
    out := ""
    created := [] }

/-- The exact bytes of the document preamble written by
`Instrumentor::write_header` (the Rust format string
`{{"otherData": {{}},"traceEvents":[`). -/
def headerString : String := "\x7b\"otherData\": \x7b\x7d,\"traceEvents\":["

/-- The exact bytes of the closing token written by
`Instrumentor::write_footer`. -/
def footerString : String := "]\x7d"

/-- `Instrumentor::write_header`: appends the preamble to the open stream. -/
def Instrumentor.write_header (st : Instrumentor) : Instrumentor :=
  if st.output_stream then { st with out := st.out ++ headerString } else st

/-- `Instrumentor::write_footer`: appends `]}` to the open stream. -/
def Instrumentor.write_footer (st : Instrumentor) : Instrumentor :=
  if st.output_stream then { st with out := st.out ++ footerString } else st

/-- The label sanitization performed in `internal_write_profile`:
`result.name.replace('"', "'")`, i.e. every `"` becomes `'`. -/
def sanitize (s : String) : String :=
  ⟨s.data.map fun c => if c = '"' then '\'' else c⟩

/-- The single event object written by `internal_write_profile` (the Rust
format string
`{{"cat":"function","dur":{},"name":"{}","ph":"X","pid":0,"tid":{},"ts":{}}}`
applied to `end - start`, the sanitized name, `thread_id` and `start`). -/
def profileJson (result : ProfileResult) : String :=
  "\x7b\"cat\":\"function\",\"dur\":" ++ toString (result.end_ - result.start) ++
    ",\"name\":\"" ++ sanitize result.name ++
    "\",\"ph\":\"X\",\"pid\":0,\"tid\":" ++ toString result.thread_id ++
    ",\"ts\":" ++ toString result.start ++ "\x7d"

/-- `Instrumentor::internal_begin_session`.  `ok` is the outcome of
`File::create(filepath)`; on success the file is truncated (fresh `out`)
and recorded in `created`, the header is written, and the session is
installed.  If a session is already active the call returns at once. -/
def Instrumentor.internal_begin_session (st : Instrumentor) (name filepath : String)
    (ok : Bool) : Instrumentor :=
  if st.current_session.isSome then st
  else if ok then
    let st1 : Instrumentor :=
      { st with output_stream := true, out := "", created := st.created ++ [filepath] }
    let st2 := st1.write_header
    { st2 with current_session := some { name := name } }
  else st

/-- `Instrumentor::internal_end_session`: when a session is active, writes
the footer, drops the stream, clears the session and zeroes the counter. -/
def Instrumentor.internal_end_session (st : Instrumentor) : Instrumentor :=
  if st.current_session.isSome then
    let st1 := st.write_footer
    { st1 with output_stream := false, current_session := none, profile_count := 0 }
  else st

/-- `Instrumentor::internal_write_profile`: when the stream is open, writes
a separating comma iff `profile_count > 0`, then the event object, and
increments the counter. -/
def Instrumentor.internal_write_profile (st : Instrumentor) (result : ProfileResult) :
    Instrumentor :=
  if st.output_stream then
    { st with
      out := st.out ++ (if st.profile_count > 0 then "," else "") ++ profileJson result
      profile_count := st.profile_count + 1 }
  else st

/-- A sequence of `write_profile` calls during one session. -/
def writeAll : Instrumentor → List ProfileResult → Instrumentor
  | st, [] => st
  | st, r :: rs => writeAll (st.internal_write_profile r) rs

/-- The state invariant of the collector: the output handle is present iff a
session is active, and with no session the event counter is zero. -/
def InstInv (st : Instrumentor) : Prop :=
  st.output_stream = st.current_session.isSome ∧
  (st.current_session = none → st.profile_count = 0)

theorem instInv_new : InstInv Instrumentor.new := by
  constructor <;> simp [Instrumentor.new]

theorem instInv_begin (st : Instrumentor) (name filepath : String) (ok : Bool)
    (h : InstInv st) : InstInv (st.internal_begin_session name filepath ok) := by
  obtain ⟨h1, h2⟩ := h
  unfold Instrumentor.internal_begin_session
  by_cases hs : st.current_session.isSome
  · simpa [hs, InstInv, h1] using h2
  · simp only [hs, if_false]
    cases ok with
    | false => simpa [InstInv, h1] using h2
    | true => simp [InstInv, Instrumentor.write_header]

theorem instInv_end (st : Instrumentor) (h : InstInv st) :
    InstInv st.internal_end_session := by
  obtain ⟨h1, h2⟩ := h
  unfold Instrumentor.internal_end_session
  by_cases hs : st.current_session.isSome
  · simp [hs, InstInv, Instrumentor.write_footer]
  · simp [hs]
    exact ⟨h1, h2⟩

theorem instInv_write (st : Instrumentor) (r : ProfileResult) (h : InstInv st) :
    InstInv (st.internal_write_profile r) := by
  obtain ⟨h1, h2⟩ := h
  unfold Instrumentor.internal_write_profile
  by_cases ho : st.output_stream
  · have hs : st.current_session.isSome = true := by rw [← h1]; exact ho
    simp only [ho, if_true]
    refine ⟨hs.symm, ?_⟩
    intro hn
    rw [hn] at hs
    simp at hs
  · simp only [ho, if_false]
    exact ⟨h1, h2⟩

/-- Comma-separated concatenation: the first element is preceded by no
comma, every later element by exactly one. -/
def joinComma : List String → String
  | [] => ""
  | [s] => s
  | s :: t :: rest => s ++ "," ++ joinComma (t :: rest)

/-- The block of bytes appended by a run of `internal_write_profile` calls
starting from counter value `k`. -/
def commaBlock : Nat → List ProfileResult → String
  | _, [] => ""
  | k, r :: rs => (if k > 0 then "," else "") ++ profileJson r ++ commaBlock (k + 1) rs

theorem writeAll_eq (rs : List ProfileResult) : ∀ st : Instrumentor,
    st.output_stream = true →
    writeAll st rs =
      { st with
        out := st.out ++ commaBlock st.profile_count rs
        profile_count := st.profile_count + rs.length } := by
  induction rs with
  | nil => intro st h; simp [writeAll, commaBlock]
  | cons r rs ih =>
    intro st h
    have hw : st.internal_write_profile r =
        { st with
          out := st.out ++ (if st.profile_count > 0 then "," else "") ++ profileJson r
          profile_count := st.profile_count + 1 } := by
      simp [Instrumentor.internal_write_profile, h]
    rw [writeAll, hw,
      ih { st with
            out := st.out ++ (if st.profile_count > 0 then "," else "") ++ profileJson r
            profile_count := st.profile_count + 1 } (by exact h)]
    simp [commaBlock, String.append_assoc]
    omega

theorem commaBlock_succ (rs : List ProfileResult) : ∀ k : Nat,
    commaBlock (k + 1) rs =
      if rs.isEmpty then "" else "," ++ joinComma (rs.map profileJson) := by
  induction rs with
  | nil => intro k; rfl
  | cons r rs ih =>
    intro k
    rw [commaBlock, ih (k + 1)]
    cases rs with
    | nil => simp [joinComma]
    | cons t ts => simp [joinComma, String.append_assoc]

theorem commaBlock_zero (rs : List ProfileResult) :
    commaBlock 0 rs = joinComma (rs.map profileJson) := by
  cases rs with
  | nil => rfl
  | cons r rs =>
    rw [commaBlock, commaBlock_succ]
    cases rs with
    | nil => simp [joinComma]
    | cons t ts => simp [joinComma, String.append_assoc]

theorem joinComma_cons_cons (a b : String) (l : List String) :
    joinComma (a :: b :: l) = a ++ "," ++ joinComma (b :: l) := rfl

theorem joinComma_snoc (l : List String) (s : String) :
    joinComma (l ++ [s]) =
      joinComma l ++ (if l.isEmpty then "" else ",") ++ s := by
  induction l with
  | nil => simp [joinComma]
  | cons a l ih =>
    cases l with
    | nil => simp [joinComma]
    | cons b l' =>
      have hl : (a :: b :: l') ++ [s] = a :: (b :: (l' ++ [s])) := by simp
      rw [hl, joinComma_cons_cons]
      have hl2 : b :: (l' ++ [s]) = (b :: l') ++ [s] := by simp
      rw [hl2, ih]
      simp [joinComma_cons_cons, String.append_assoc]

/-- The scope-guard timer (`InstrumentationTimer` in `src/main.rs`).
`start_timepoint` holds the creation instant in microseconds while the
timer is running (`Option<Instant>` in the source). -/
structure InstrumentationTimer where
  name : String
  start_timepoint : Option Nat
  stopped : Bool
  deriving DecidableEq

/-- `InstrumentationTimer::new`: captures the current instant. -/
def InstrumentationTimer.new (name : String) (now : Nat) : InstrumentationTimer :=
  { name := name, start_timepoint := some now, stopped := false }

/-- `InstrumentationTimer::stop`.  `nowStop` is the clock at the
`Instant::now()` call (`end_timepoint`), `nowElapsed` the clock at the
subsequent `start_timepoint.elapsed()` call, `threadHash` the 64-bit
`DefaultHasher` value of the current thread id (truncated `as u32`).
Returns the updated timer and the event submitted to
`Instrumentor::write_profile`, if any. -/
def InstrumentationTimer.stop (tm : InstrumentationTimer)
    (nowStop nowElapsed threadHash : Nat) :
    InstrumentationTimer × Option ProfileResult :=
  match tm.start_timepoint with
  | some c =>
    let duration : Int := ((nowStop - c : Nat) : Int)
    let start : Int := ((nowElapsed - c : Nat) : Int)
    let thread_id : Nat := threadHash % 2 ^ 32
    ({ tm with start_timepoint := none, stopped := true },
      some { name := tm.name, start := start, end_ := start + duration,
             thread_id := thread_id })
  | none => (tm, none)

/-- The `Drop` impl for `InstrumentationTimer`: calls `stop` unless the
timer is already stopped. -/
def InstrumentationTimer.drop (tm : InstrumentationTimer)
    (nowStop nowElapsed threadHash : Nat) :
    InstrumentationTimer × Option ProfileResult :=
  if tm.stopped then (tm, none) else tm.stop nowStop nowElapsed threadHash

/-- Run a sequence of explicit `stop` calls (each with its own clock
readings and thread hash), counting how many events were submitted. -/
def runStops : InstrumentationTimer → List (Nat × Nat × Nat) →
    InstrumentationTimer × Nat
  | tm, [] => (tm, 0)
  | tm, (t1, t2, h) :: rest =>
    let p := tm.stop t1 t2 h
    let q := runStops p.1 rest
    (q.1, (if p.2.isSome then 1 else 0) + q.2)

/-- Total number of events a timer submits over its whole lifetime: any
number of explicit `stop` calls followed by the `Drop` at scope exit. -/
def timerLifetimeCount (name : String) (c : Nat)
    (ops : List (Nat × Nat × Nat)) (d1 d2 dh : Nat) : Nat :=
  let p := runStops (InstrumentationTimer.new name c) ops
  let q := p.1.drop d1 d2 dh
  p.2 + (if q.2.isSome then 1 else 0)

theorem stop_of_taken (tm : InstrumentationTimer) (t1 t2 h : Nat)
    (hn : tm.start_timepoint = none) : tm.stop t1 t2 h = (tm, none) := by
  simp [InstrumentationTimer.stop, hn]

theorem runStops_of_taken (ops : List (Nat × Nat × Nat)) :
    ∀ tm : InstrumentationTimer, tm.start_timepoint = none →
    runStops tm ops = (tm, 0) := by
  induction ops with
  | nil => intro tm hn; rfl
  | cons op rest ih =>
    intro tm hn
    obtain ⟨t1, t2, h⟩ := op
    rw [runStops]
    simp only [stop_of_taken tm t1 t2 h hn]
    simp [ih tm hn]

theorem stop_of_fresh (tm : InstrumentationTimer) (t1 t2 h c : Nat)
    (hs : tm.start_timepoint = some c) :
    tm.stop t1 t2 h =
      ({ tm with start_timepoint := none, stopped := true },
        some { name := tm.name, start := ((t2 - c : Nat) : Int),
               end_ := ((t2 - c : Nat) : Int) + ((t1 - c : Nat) : Int),
               thread_id := h % 2 ^ 32 }) := by
  simp [InstrumentationTimer.stop, hs]

/-- Concrete JSON syntax trees.  Object entries carry the literal
whitespace written after the colon (JSON allows whitespace there), so that
rendering is deterministic while still covering the space the header puts
after `"otherData":`. -/
inductive Json where
  | num (n : Int)
  | str (s : String)
  | arr (xs : List Json)
  | obj (kvs : List (String × String × Json))

mutual

/-- Serialize a JSON tree; object/array members are comma-separated, string
atoms are wrapped in double quotes verbatim. -/
def Json.render : Json → String
  | .num n => toString n
  | .str s => "\"" ++ s ++ "\""
  | .arr xs => "[" ++ Json.renderArr xs ++ "]"
  | .obj kvs => "\x7b" ++ Json.renderObj kvs ++ "\x7d"

def Json.renderArr : List Json → String
  | [] => ""
  | [x] => Json.render x
  | x :: y :: xs => Json.render x ++ "," ++ Json.renderArr (y :: xs)

def Json.renderObj : List (String × String × Json) → String
  | [] => ""
  | [(k, w, v)] => "\"" ++ k ++ "\":" ++ w ++ Json.render v
  | (k, w, v) :: e :: kvs =>
    "\"" ++ k ++ "\":" ++ w ++ Json.render v ++ "," ++ Json.renderObj (e :: kvs)

end

/-- A character that may sit inside a JSON string literal without any
escaping: not a double quote, not a backslash, not a control character. -/
def safeChar (c : Char) : Bool :=
  c != '"' && c != '\\' && decide (32 ≤ c.toNat)

/-- A string whose every character is `safeChar`. -/
def safeStr (s : String) : Bool := s.data.all safeChar

/-- Whitespace-only padding. -/
def wsOnly (s : String) : Bool := s.data.all fun c => c = ' '

mutual

/-- Well-formedness of a JSON tree: rendering it yields a syntactically
valid JSON document (string atoms and keys need no escaping, padding is
really whitespace). -/
def Json.wfB : Json → Bool
  | .num _ => true
  | .str s => safeStr s
  | .arr xs => Json.wfArr xs
  | .obj kvs => Json.wfObj kvs

def Json.wfArr : List Json → Bool
  | [] => true
  | x :: xs => Json.wfB x && Json.wfArr xs

def Json.wfObj : List (String × String × Json) → Bool
  | [] => true
  | (k, w, v) :: kvs => safeStr k && wsOnly w && Json.wfB v && Json.wfObj kvs

end

/-- A label free of JSON-special characters other than the double quote:
no backslash and no control characters. -/
def safeLabel (s : String) : Prop := ∀ c ∈ s.data, c ≠ '\\' ∧ 32 ≤ c.toNat

theorem safeStr_sanitize (s : String) (h : safeLabel s) :
    safeStr (sanitize s) = true := by
  simp only [safeStr, sanitize, List.all_eq_true]
  intro c hc
  simp only [List.mem_map] at hc
  obtain ⟨d, hd, rfl⟩ := hc
  obtain ⟨hb, hctl⟩ := h d hd
  by_cases hq : d = '"'
  · simp [hq, safeChar]
  · simp only [if_neg hq, safeChar, Bool.and_eq_true, bne_iff_ne, ne_eq,
      decide_eq_true_eq]
    exact ⟨⟨hq, hb⟩, hctl⟩

/-- The JSON tree of one event object, exactly as `internal_write_profile`
serializes it. -/
def eventJson (r : ProfileResult) : Json :=
  .obj [("cat", "", .str "function"),
        ("dur", "", .num (r.end_ - r.start)),
        ("name", "", .str (sanitize r.name)),
        ("ph", "", .str "X"),
        ("pid", "", .num 0),
        ("tid", "", .num (r.thread_id : Int)),
        ("ts", "", .num r.start)]

/-- The JSON tree of a whole trace document holding the given events. -/
def traceDoc (rs : List ProfileResult) : Json :=
  .obj [("otherData", " ", .obj []),
        ("traceEvents", "", .arr (rs.map eventJson))]

theorem render_eventJson (r : ProfileResult) :
    (eventJson r).render = profileJson r := by
  have z : toString (0 : Int) = "0" := rfl
  have tn : toString ((r.thread_id : Nat) : Int) = toString r.thread_id := rfl
  have s1 : ("\x7b\"cat\":\"function\",\"dur\":" : String) =
      "\x7b" ++ "\"" ++ "cat" ++ "\":" ++ ("\"" ++ "function" ++ "\"") ++ "," ++
        "\"" ++ "dur" ++ "\":" := rfl
  have s2 : (",\"name\":\"" : String) = "," ++ "\"" ++ "name" ++ "\":" ++ "\"" := rfl
  have s3 : ("\",\"ph\":\"X\",\"pid\":0,\"tid\":" : String) =
      "\"" ++ "," ++ "\"" ++ "ph" ++ "\":" ++ ("\"" ++ "X" ++ "\"") ++ "," ++
        "\"" ++ "pid" ++ "\":" ++ "0" ++ "," ++ "\"" ++ "tid" ++ "\":" := rfl
  have s4 : (",\"ts\":" : String) = "," ++ "\"" ++ "ts" ++ "\":" := rfl
  rw [profileJson, s1, s2, s3, s4]
  simp only [eventJson, Json.render, Json.renderObj, z, tn,
    String.append_empty, String.empty_append, String.append_assoc]

theorem renderArr_map (rs : List ProfileResult) :
    Json.renderArr (rs.map eventJson) = joinComma (rs.map profileJson) := by
  induction rs with
  | nil => rfl
  | cons r rs ih =>
    cases rs with
    | nil => simp [Json.renderArr, joinComma, render_eventJson]
    | cons t ts =>
      simp only [List.map_cons] at ih ⊢
      rw [Json.renderArr, ih, joinComma_cons_cons, render_eventJson]

theorem render_traceDoc (rs : List ProfileResult) :
    (traceDoc rs).render =
      headerString ++ joinComma (rs.map profileJson) ++ footerString := by
  have s1 : headerString =
      "\x7b" ++ "\"" ++ "otherData" ++ "\":" ++ " " ++ ("\x7b" ++ "\x7d") ++ "," ++
        "\"" ++ "traceEvents" ++ "\":" ++ "[" := rfl
  have s2 : footerString = "]" ++ "\x7d" := rfl
  rw [traceDoc]
  simp only [Json.render, Json.renderObj]
  rw [renderArr_map, s1, s2]
  simp only [String.append_empty, String.empty_append, String.append_assoc]

theorem wfB_eventJson (r : ProfileResult) (h : safeLabel r.name) :
    (eventJson r).wfB = true := by
  have hs := safeStr_sanitize r.name h
  have c1 : safeStr "cat" = true := by decide
  have c2 : safeStr "dur" = true := by decide
  have c3 : safeStr "name" = true := by decide
  have c4 : safeStr "ph" = true := by decide
  have c5 : safeStr "pid" = true := by decide
  have c6 : safeStr "tid" = true := by decide
  have c7 : safeStr "ts" = true := by decide
  have c8 : safeStr "function" = true := by decide
  have c9 : safeStr "X" = true := by decide
  have w0 : wsOnly "" = true := by decide
  simp [eventJson, Json.wfB, Json.wfObj, c1, c2, c3, c4, c5, c6, c7, c8, c9, w0, hs]

theorem wfArr_map (rs : List ProfileResult) (h : ∀ r ∈ rs, safeLabel r.name) :
    Json.wfArr (rs.map eventJson) = true := by
  induction rs with
  | nil => decide
  | cons r rs ih =>
    simp only [List.map_cons, Json.wfArr, Bool.and_eq_true]
    exact ⟨wfB_eventJson r (h r (by simp)), ih (fun t ht => h t (by simp [ht]))⟩

theorem wfB_traceDoc (rs : List ProfileResult) (h : ∀ r ∈ rs, safeLabel r.name) :
    (traceDoc rs).wfB = true := by
  have o1 : safeStr "otherData" = true := by decide
  have o2 : safeStr "traceEvents" = true := by decide
  have w1 : wsOnly " " = true := by decide
  have w0 : wsOnly "" = true := by decide
  simp [traceDoc, Json.wfB, Json.wfObj, o1, o2, w1, w0, wfArr_map rs h]

theorem begin_success_eq (st : Instrumentor) (name fp : String)
    (hs : st.current_session.isSome = false) :
    st.internal_begin_session name fp true =
      { st with
        current_session := some { name := name }
        output_stream := true
        out := headerString
        created := st.created ++ [fp] } := by
  simp [Instrumentor.internal_begin_session, hs, Instrumentor.write_header]

theorem end_active_eq (st : Instrumentor)
    (hs : st.current_session.isSome = true) (ho : st.output_stream = true) :
    st.internal_end_session =
      { st with
        out := st.out ++ footerString
        output_stream := false
        current_session := none
        profile_count := 0 } := by
  simp [Instrumentor.internal_end_session, hs, Instrumentor.write_footer, ho]

theorem writeAll_closed (rs : List ProfileResult) : ∀ st : Instrumentor,
    st.output_stream = false → writeAll st rs = st := by
  induction rs with
  | nil => intro st _; rfl
  | cons r rs ih =>
    intro st ho
    rw [writeAll, show st.internal_write_profile r = st by
      simp [Instrumentor.internal_write_profile, ho]]
    exact ih st ho

/-- C10: the collector invariant — the output handle is present iff a
session is active, and the event counter is zero whenever no session is
active — is established by `Instrumentor::new` and preserved by
`internal_begin_session`, `internal_end_session` and
`internal_write_profile`; consequently `internal_write_profile`'s guard on
the output stream is equivalent to checking for an active session, and the
counter is zero at the start of every successful session even though
`internal_begin_session` never explicitly resets it. -/
theorem C10_collector_invariant :
    InstInv Instrumentor.new ∧
    (∀ (st : Instrumentor) (name fp : String) (ok : Bool), InstInv st →
      InstInv (st.internal_begin_session name fp ok)) ∧
    (∀ st : Instrumentor, InstInv st → InstInv st.internal_end_session) ∧
    (∀ (st : Instrumentor) (r : ProfileResult), InstInv st →
      InstInv (st.internal_write_profile r)) ∧
    (∀ (st : Instrumentor) (name fp : String), InstInv st →
      st.current_session = none →
      (st.internal_begin_session name fp true).profile_count = 0) := by
  refine ⟨instInv_new, instInv_begin, instInv_end, instInv_write, ?_⟩
  intro st name fp h hn
  rw [begin_success_eq st name fp (by simp [hn])]
  exact h.2 hn

/-- C10 witness: the invariant holds in the concrete state reached by a
successful `begin_session` from the initial state. -/
theorem C10_collector_invariant_witness :
    InstInv (Instrumentor.new.internal_begin_session "Session" "trace.json" true) :=
  C10_collector_invariant.2.1 Instrumentor.new "Session" "trace.json" true
    instInv_new

/-- C9: `write_profile` with no active session silently drops the event:
the state (file bytes, counter, session, everything) is unchanged. -/
theorem C9_write_no_session (st : Instrumentor) (r : ProfileResult)
    (hinv : InstInv st) (hn : st.current_session = none) :
    st.internal_write_profile r = st := by
  have ho : st.output_stream = false := by rw [hinv.1, hn]; rfl
  simp [Instrumentor.internal_write_profile, ho]

/-- C9 witness at the initial state. -/
theorem C9_write_no_session_witness :
    Instrumentor.new.internal_write_profile
      { name := "work", start := 3, end_ := 10, thread_id := 7 } =
    Instrumentor.new :=
  C9_write_no_session Instrumentor.new
    { name := "work", start := 3, end_ := 10, thread_id := 7 } instInv_new rfl

/-- C7: `begin_session` while a session is already active is a complete
no-op: the state is returned unchanged, so the existing session, its name,
its open file, the counter and the file contents are untouched, no new
preamble is written, and `File::create` is never reached (the `created`
ghost list is unchanged, i.e. the second path is not truncated). -/
theorem C7_begin_while_active (st : Instrumentor) (name fp : String) (ok : Bool)
    (hs : st.current_session.isSome = true) :
    st.internal_begin_session name fp ok = st := by
  simp [Instrumentor.internal_begin_session, hs]

/-- C7 witness: a second `begin_session` right after a successful one. -/
theorem C7_begin_while_active_witness :
    (Instrumentor.new.internal_begin_session "S" "a.json" true).internal_begin_session
        "T" "b.json" true =
      Instrumentor.new.internal_begin_session "S" "a.json" true :=
  C7_begin_while_active _ "T" "b.json" true (by decide)

/-- C8: when no session is active and `File::create` fails, `begin_session`
returns with the state completely unchanged — no error is surfaced (the
model is a total function into states), no session becomes active, and
every subsequent `write_profile` before a new `begin_session` is a no-op. -/
theorem C8_begin_open_failure (st : Instrumentor) (name fp : String)
    (hinv : InstInv st) (hn : st.current_session = none) :
    st.internal_begin_session name fp false = st ∧
    (st.internal_begin_session name fp false).current_session = none ∧
    ∀ rs : List ProfileResult,
      writeAll (st.internal_begin_session name fp false) rs =
        st.internal_begin_session name fp false := by
  have he : st.internal_begin_session name fp false = st := by
    simp [Instrumentor.internal_begin_session, hn]
  have ho : st.output_stream = false := by rw [hinv.1, hn]; rfl
  refine ⟨he, by rw [he]; exact hn, ?_⟩
  intro rs
  rw [he]
  exact writeAll_closed rs st ho

/-- C8 witness: a failing `begin_session` from the initial state. -/
theorem C8_begin_open_failure_witness :
    Instrumentor.new.internal_begin_session "S" "no/such/dir.json" false =
      Instrumentor.new :=
  (C8_begin_open_failure Instrumentor.new "S" "no/such/dir.json"
    instInv_new rfl).1

/-- C4 counterexample: the claim's preamble `{"otherData": {}, "traceEvents":[`
(with a space after the comma) is not what a successful `begin_session`
writes — the Rust format string has no space between the comma and
`"traceEvents"`. -/
theorem C4_space_counterexample :
    (Instrumentor.new.internal_begin_session "Session" "trace.json" true).out ≠
      "\x7b\"otherData\": \x7b\x7d, \"traceEvents\":[" := by decide

/-- C4 (amended): a successful `begin_session` from a no-session state
leaves the file holding exactly the preamble `{"otherData": {},"traceEvents":[`
(no space after the comma before `"traceEvents"`), the event counter at
zero, and a session with the given name active. -/
theorem C4_begin_session_success (st : Instrumentor) (name fp : String)
    (hinv : InstInv st) (hn : st.current_session = none) :
    (st.internal_begin_session name fp true).out =
        "\x7b\"otherData\": \x7b\x7d,\"traceEvents\":[" ∧
    (st.internal_begin_session name fp true).profile_count = 0 ∧
    (st.internal_begin_session name fp true).current_session =
        some { name := name } := by
  rw [begin_success_eq st name fp (by simp [hn])]
  exact ⟨rfl, hinv.2 hn, rfl⟩

/-- C4 witness: the amended preamble at the initial state. -/
theorem C4_begin_session_success_witness :
    (Instrumentor.new.internal_begin_session "Session" "trace.json" true).out =
      "\x7b\"otherData\": \x7b\x7d,\"traceEvents\":[" :=
  (C4_begin_session_success Instrumentor.new "Session" "trace.json"
    instInv_new rfl).1

/-- C3: with the stream open, `write_profile` appends a comma iff this is
not the first event, then exactly the object
`{"cat":"function","dur":D,"name":"L","ph":"X","pid":0,"tid":T,"ts":S}`
with the keys in that order, where `D = end - start` is the event's
duration, `T` its thread identity, `S` its start value, and `L` the label
with every `"` replaced by `'` and no other change; the counter is then
incremented. -/
theorem C3_event_format (st : Instrumentor) (r : ProfileResult)
    (ho : st.output_stream = true) :
    st.internal_write_profile r =
      { st with
        out := st.out ++ (if st.profile_count > 0 then "," else "") ++
          ("\x7b\"cat\":\"function\",\"dur\":" ++ toString (r.end_ - r.start) ++
            ",\"name\":\"" ++
            String.mk (r.name.data.map fun c => if c = '"' then '\'' else c) ++
            "\",\"ph\":\"X\",\"pid\":0,\"tid\":" ++ toString r.thread_id ++
            ",\"ts\":" ++ toString r.start ++ "\x7d")
        profile_count := st.profile_count + 1 } := by
  simp only [Instrumentor.internal_write_profile, ho, if_true]
  rfl

/-- C3 witness: one event written right after a successful `begin_session`,
with a label containing a double quote. -/
theorem C3_event_format_witness :
    ((Instrumentor.new.internal_begin_session "S" "t.json" true).internal_write_profile
        { name := "say \"hi\"", start := 3, end_ := 10, thread_id := 7 }).out =
      "\x7b\"otherData\": \x7b\x7d,\"traceEvents\":[\x7b\"cat\":\"function\",\"dur\":7,\"name\":\"say 'hi'\",\"ph\":\"X\",\"pid\":0,\"tid\":7,\"ts\":3\x7d" := by
  rw [C3_event_format _ _ (by decide)]
  decide

/-- C5: every timer submits exactly one event over its lifetime: any number
of explicit `stop` calls followed by the `Drop` at scope exit yields
exactly one submission, whatever the clock readings — a second `stop` is a
no-op and a never-stopped timer reports exactly once from `Drop`. -/
theorem C5_exactly_one_event (name : String) (c : Nat)
    (ops : List (Nat × Nat × Nat)) (d1 d2 dh : Nat) :
    timerLifetimeCount name c ops d1 d2 dh = 1 := by
  unfold timerLifetimeCount
  cases ops with
  | nil =>
    simp only [runStops, InstrumentationTimer.drop, InstrumentationTimer.new]
    rw [stop_of_fresh _ d1 d2 dh c rfl]
    simp
  | cons op rest =>
    obtain ⟨t1, t2, h⟩ := op
    rw [runStops]
    simp only [stop_of_fresh (InstrumentationTimer.new name c) t1 t2 h c rfl]
    rw [runStops_of_taken rest _ rfl]
    simp [InstrumentationTimer.drop, InstrumentationTimer.new]

/-- C6: with a monotone clock (`c ≤ t1 ≤ t2`, where `c` is the timer's
creation instant, `t1` the `Instant::now()` read in `stop` and `t2` the
later `elapsed()` read), the submitted event's `ts`/start value is the
elapsed time since the timer's own creation measured again at the moment
of stop (`t2 - c`), not a session-relative time; the serialized `dur`
value `end - start` is the microseconds elapsed between creation and the
stop instant (`t1 - c`); and the start value is at least the duration. -/
theorem C6_timer_timestamps (name : String) (c t1 t2 h : Nat)
    (_hcreate : c ≤ t1) (ht : t1 ≤ t2) :
    ∃ r : ProfileResult,
      ((InstrumentationTimer.new name c).stop t1 t2 h).2 = some r ∧
      r.start = ((t2 - c : Nat) : Int) ∧
      r.end_ - r.start = ((t1 - c : Nat) : Int) ∧
      r.end_ - r.start ≤ r.start := by
  rw [stop_of_fresh _ t1 t2 h c rfl]
  refine ⟨_, rfl, rfl, by push_cast; ring, ?_⟩
  have hsub : (t1 - c : Nat) ≤ (t2 - c : Nat) := Nat.sub_le_sub_right ht c
  have : ((t1 - c : Nat) : Int) ≤ ((t2 - c : Nat) : Int) := Int.ofNat_le.mpr hsub
  simpa using this

/-- C6 witness: creation at 0, stop instant 5, elapsed read at 7. -/
theorem C6_timer_timestamps_witness :
    ∃ r : ProfileResult,
      ((InstrumentationTimer.new "work" 0).stop 5 7 3).2 = some r ∧
      r.start = ((7 - 0 : Nat) : Int) ∧
      r.end_ - r.start = ((5 - 0 : Nat) : Int) ∧
      r.end_ - r.start ≤ r.start :=
  C6_timer_timestamps "work" 0 5 7 3 (by decide) (by decide)

/-- C1: starting a session from a no-session state, writing any sequence
of events and ending the session produces exactly the preamble, the event
objects separated by single commas (none before the first), and exactly
one closing `]}` token; for labels free of JSON-special characters other
than double quotes, the resulting file is the rendering of a well-formed
JSON document. -/
theorem C1_stream_framing (st : Instrumentor) (name fp : String)
    (rs : List ProfileResult) (hinv : InstInv st) (hn : st.current_session = none) :
    (writeAll (st.internal_begin_session name fp true) rs).out =
        headerString ++ joinComma (rs.map profileJson) ∧
    (writeAll (st.internal_begin_session name fp true) rs).internal_end_session.out =
        headerString ++ joinComma (rs.map profileJson) ++ footerString ∧
    ((∀ r ∈ rs, safeLabel r.name) →
      ∃ j : Json, j.wfB = true ∧
        j.render =
          (writeAll (st.internal_begin_session name fp true) rs).internal_end_session.out) := by
  have hc0 : st.profile_count = 0 := hinv.2 hn
  have hb := begin_success_eq st name fp (by simp [hn])
  have hw := writeAll_eq rs (st.internal_begin_session name fp true)
    (by rw [hb])
  rw [hb] at hw
  have hmid : (writeAll (st.internal_begin_session name fp true) rs).out =
      headerString ++ joinComma (rs.map profileJson) := by
    rw [hb, hw]
    simp [hc0, commaBlock_zero]
  have hses : (writeAll (st.internal_begin_session name fp true) rs).current_session.isSome
      = true := by
    rw [hb, hw]
    simp
  have hstr : (writeAll (st.internal_begin_session name fp true) rs).output_stream
      = true := by
    rw [hb, hw]
  have hend : (writeAll (st.internal_begin_session name fp true) rs).internal_end_session.out =
      headerString ++ joinComma (rs.map profileJson) ++ footerString := by
    rw [end_active_eq _ hses hstr]
    simp [hmid]
  refine ⟨hmid, hend, ?_⟩
  intro hsafe
  exact ⟨traceDoc rs, wfB_traceDoc rs hsafe, by rw [render_traceDoc, hend]⟩

/-- C1 witness: one complete session with a single event. -/
theorem C1_stream_framing_witness :
    (writeAll (Instrumentor.new.internal_begin_session "S" "out.json" true)
        [{ name := "work", start := 3, end_ := 10, thread_id := 7 }]).internal_end_session.out =
      "\x7b\"otherData\": \x7b\x7d,\"traceEvents\":[\x7b\"cat\":\"function\",\"dur\":7,\"name\":\"work\",\"ph\":\"X\",\"pid\":0,\"tid\":7,\"ts\":3\x7d]\x7d" := by
  rw [(C1_stream_framing Instrumentor.new "S" "out.json"
    [{ name := "work", start := 3, end_ := 10, thread_id := 7 }] instInv_new rfl).2.1]
  decide

/-- Program counter of one thread's `write_profile` call in the
fine-grained concurrency model: acquire the collector lock, conditionally
write the separating comma, write the event-object bytes, increment the
counter, release the lock. -/
inductive Pc where
  | start
  | comma
  | body
  | incr
  | unlock
  | done
  deriving DecidableEq

/-- Global state of the fine-grained model: the owner of the collector
lock, each thread's program counter, the shared event counter, the bytes
written to the stream so far, and the ghost order in which event bodies
were completed. -/
structure CState where
  lock : Option Nat
  pcs : Nat → Pc
  count : Nat
  out : String
  ghost : List Nat

/-- One micro-step of thread `t` performing `write_profile` on event
`evs t`.  The lock is taken before the counter is read and released only
after the increment, exactly as the guard of the single mutex in
`Instrumentor::write_profile` lives across the whole of
`internal_write_profile`; a thread at `start` spins while the lock is
taken.  Threads `t ≥ n` do not exist and never move. -/
def microStep (n : Nat) (evs : Nat → ProfileResult) (s : CState) (t : Nat) : CState :=
  if t < n then
    match s.pcs t with
    | .start =>
      if s.lock = none then
        { s with lock := some t, pcs := fun u => if u = t then .comma else s.pcs u }
      else s
    | .comma =>
      { s with
        out := s.out ++ (if s.count > 0 then "," else "")
        pcs := fun u => if u = t then .body else s.pcs u }
    | .body =>
      { s with
        out := s.out ++ profileJson (evs t)
        ghost := s.ghost ++ [t]
        pcs := fun u => if u = t then .incr else s.pcs u }
    | .incr =>
      { s with
        count := s.count + 1
        pcs := fun u => if u = t then .unlock else s.pcs u }
    | .unlock =>
      { s with
        lock := none
        pcs := fun u => if u = t then .done else s.pcs u }
    | .done => s
  else s

/-- Run the model under an arbitrary schedule (list of thread choices). -/
def runSched (n : Nat) (evs : Nat → ProfileResult) : CState → List Nat → CState :=
  List.foldl (microStep n evs)

/-- Initial state: lock free, all threads before their call, nothing
written yet. -/
def initC : CState :=
  { lock := none, pcs := fun _ => .start, count := 0, out := "", ghost := [] }

/-- Program counters strictly inside the critical section. -/
def atCS : Pc → Bool
  | .start => false
  | .done => false
  | _ => true

/-- The bytes of the events completed so far, in completion order, with
single separating commas. -/
def evJoin (evs : Nat → ProfileResult) (g : List Nat) : String :=
  joinComma (g.map fun t => profileJson (evs t))

/-- The separator the next event must be preceded by. -/
def sepStr (g : List Nat) : String := if g.isEmpty then "" else ","

theorem evJoin_snoc (evs : Nat → ProfileResult) (g : List Nat) (t : Nat) :
    evJoin evs (g ++ [t]) = evJoin evs g ++ sepStr g ++ profileJson (evs t) := by
  cases g with
  | nil => simp [evJoin, sepStr, joinComma]
  | cons a g' =>
    simp only [evJoin, sepStr, List.map_append, List.map_cons, List.map_nil,
      joinComma_snoc, List.isEmpty_cons, List.map_eq_nil_iff]

/-- Invariant of the fine-grained model: the ghost completion order is
duplicate-free and lists exactly the threads past their body-write; a
thread strictly inside the critical section is the lock owner; and the
bytes written so far are always the comma-separated concatenation of the
completed event objects, with the shared counter tracking their number
(one behind between the body write and the increment). -/
def CInv (n : Nat) (evs : Nat → ProfileResult) (s : CState) : Prop :=
  s.ghost.Nodup ∧
  (∀ t, t ∈ s.ghost → t < n) ∧
  (∀ t, n ≤ t → s.pcs t = Pc.start) ∧
  (∀ t, t ∈ s.ghost ↔ (s.pcs t = Pc.incr ∨ s.pcs t = Pc.unlock ∨ s.pcs t = Pc.done)) ∧
  (∀ t, atCS (s.pcs t) = true → s.lock = some t) ∧
  (∀ t, s.lock = some t → atCS (s.pcs t) = true) ∧
  (s.lock = none → s.count = s.ghost.length ∧ s.out = evJoin evs s.ghost) ∧
  (∀ t, s.lock = some t →
    (s.pcs t = Pc.comma → s.count = s.ghost.length ∧ s.out = evJoin evs s.ghost) ∧
    (s.pcs t = Pc.body → s.count = s.ghost.length ∧
      s.out = evJoin evs s.ghost ++ sepStr s.ghost) ∧
    (s.pcs t = Pc.incr → s.count + 1 = s.ghost.length ∧ s.out = evJoin evs s.ghost) ∧
    (s.pcs t = Pc.unlock → s.count = s.ghost.length ∧ s.out = evJoin evs s.ghost))

theorem cinv_init (n : Nat) (evs : Nat → ProfileResult) : CInv n evs initC := by
  refine ⟨?_, ?_, ?_, ?_, ?_, ?_, ?_, ?_⟩ <;>
    simp [initC, atCS, evJoin, joinComma]

theorem countSep (g : List Nat) (k : Nat) (hk : k = g.length) :
    (if k > 0 then "," else "") = sepStr g := by
  cases g <;> simp [sepStr, hk]

theorem cinv_step (n : Nat) (evs : Nat → ProfileResult) (s : CState) (t : Nat)
    (h : CInv n evs s) : CInv n evs (microStep n evs s t) := by
  obtain ⟨hnd, hlt, hge, hmem, hcs, hown, hfree, hheld⟩ := h
  by_cases htn : t < n
  · cases hpc : s.pcs t with
    | start =>
      by_cases hl : s.lock = none
      · have hstep : microStep n evs s t =
            { s with lock := some t
                     pcs := fun u => if u = t then Pc.comma else s.pcs u } := by
          simp [microStep, htn, hpc, hl]
        obtain ⟨hcnt, hout⟩ := hfree hl
        rw [hstep]
        refine ⟨hnd, hlt, ?_, ?_, ?_, ?_, ?_, ?_⟩
        · intro u hu
          have hut : u ≠ t := by omega
          simp only [hut, if_false]
          exact hge u hu
        · intro u
          by_cases hut : u = t
          · subst hut
            simp only [if_pos rfl]
            rw [hmem u, hpc]
            simp
          · simp only [hut, if_false]
            exact hmem u
        · intro u hu
          by_cases hut : u = t
          · subst hut; rfl
          · simp only [hut, if_false] at hu
            rw [hcs u hu] at hl
            exact absurd hl (by simp)
        · intro u hu
          have hut : u = t := by
            have := Option.some.inj hu
            omega
          subst hut
          simp [atCS]
        · intro hnone
          exact absurd hnone (by simp)
        · intro u hu
          have hut : u = t := by
            have := Option.some.inj hu
            omega
          subst hut
          refine ⟨fun _ => ⟨hcnt, hout⟩, ?_, ?_, ?_⟩ <;>
            · intro habs
              simp only [if_pos rfl] at habs
              exact absurd habs (by simp)
      · have hstep : microStep n evs s t = s := by
          simp [microStep, htn, hpc, hl]
        rw [hstep]
        exact ⟨hnd, hlt, hge, hmem, hcs, hown, hfree, hheld⟩
    | comma =>
      have hl : s.lock = some t := hcs t (by simp [hpc, atCS])
      obtain ⟨hcnt, hout⟩ := (hheld t hl).1 hpc
      have hstep : microStep n evs s t =
          { s with out := s.out ++ (if s.count > 0 then "," else "")
                   pcs := fun u => if u = t then Pc.body else s.pcs u } := by
        simp [microStep, htn, hpc]
      rw [hstep]
      refine ⟨hnd, hlt, ?_, ?_, ?_, ?_, ?_, ?_⟩
      · intro u hu
        have hut : u ≠ t := by omega
        simp only [hut, if_false]
        exact hge u hu
      · intro u
        by_cases hut : u = t
        · subst hut
          simp only [if_pos rfl]
          rw [hmem u, hpc]
          simp
        · simp only [hut, if_false]
          exact hmem u
      · intro u hu
        by_cases hut : u = t
        · subst hut; exact hl
        · simp only [hut, if_false] at hu
          exact hcs u hu
      · intro u hu
        have hut : u = t := by
          rw [hl] at hu
          exact (Option.some.inj hu).symm
        subst hut
        simp [atCS]
      · intro hnone
        rw [hnone] at hl
        exact absurd hl (by simp)
      · intro u hu
        have hut : u = t := by
          rw [hl] at hu
          exact (Option.some.inj hu).symm
        subst hut
        refine ⟨?_, fun _ => ⟨hcnt, ?_⟩, ?_, ?_⟩
        · intro habs
          simp only [if_pos rfl] at habs
          exact absurd habs (by simp)
        · rw [hout, countSep s.ghost s.count hcnt]
        · intro habs
          simp only [if_pos rfl] at habs
          exact absurd habs (by simp)
        · intro habs
          simp only [if_pos rfl] at habs
          exact absurd habs (by simp)
    | body =>
      have hl : s.lock = some t := hcs t (by simp [hpc, atCS])
      obtain ⟨hcnt, hout⟩ := (hheld t hl).2.1 hpc
      have htg : t ∉ s.ghost := by
        rw [hmem t, hpc]
        simp
      have hstep : microStep n evs s t =
          { s with out := s.out ++ profileJson (evs t)
                   ghost := s.ghost ++ [t]
                   pcs := fun u => if u = t then Pc.incr else s.pcs u } := by
        simp [microStep, htn, hpc]
      rw [hstep]
      refine ⟨?_, ?_, ?_, ?_, ?_, ?_, ?_, ?_⟩
      · exact hnd.append (List.nodup_singleton t)
          (fun a ha hb => by
            rw [List.mem_singleton] at hb
            subst hb
            exact htg ha)
      · intro u hu
        rw [List.mem_append, List.mem_singleton] at hu
        rcases hu with hu | hu
        · exact hlt u hu
        · subst hu; exact htn
      · intro u hu
        have hut : u ≠ t := by omega
        simp only [hut, if_false]
        exact hge u hu
      · intro u
        by_cases hut : u = t
        · subst hut
          simp only [if_pos rfl]
          simp
        · simp only [hut, if_false]
          rw [List.mem_append, List.mem_singleton]
          simp only [hut, or_false]
          exact hmem u
      · intro u hu
        by_cases hut : u = t
        · subst hut; exact hl
        · simp only [hut, if_false] at hu
          exact hcs u hu
      · intro u hu
        have hut : u = t := by
          rw [hl] at hu
          exact (Option.some.inj hu).symm
        subst hut
        simp [atCS]
      · intro hnone
        rw [hnone] at hl
        exact absurd hl (by simp)
      · intro u hu
        have hut : u = t := by
          rw [hl] at hu
          exact (Option.some.inj hu).symm
        subst hut
        refine ⟨?_, ?_, fun _ => ⟨?_, ?_⟩, ?_⟩
        · intro habs
          simp only [if_pos rfl] at habs
          exact absurd habs (by simp)
        · intro habs
          simp only [if_pos rfl] at habs
          exact absurd habs (by simp)
        · simp [hcnt]
        · rw [hout, evJoin_snoc]
        · intro habs
          simp only [if_pos rfl] at habs
          exact absurd habs (by simp)
    | incr =>
      have hl : s.lock = some t := hcs t (by simp [hpc, atCS])
      obtain ⟨hcnt, hout⟩ := (hheld t hl).2.2.1 hpc
      have hstep : microStep n evs s t =
          { s with count := s.count + 1
                   pcs := fun u => if u = t then Pc.unlock else s.pcs u } := by
        simp [microStep, htn, hpc]
      rw [hstep]
      refine ⟨hnd, hlt, ?_, ?_, ?_, ?_, ?_, ?_⟩
      · intro u hu
        have hut : u ≠ t := by omega
        simp only [hut, if_false]
        exact hge u hu
      · intro u
        by_cases hut : u = t
        · subst hut
          simp only [if_pos rfl]
          rw [hmem u, hpc]
          simp
        · simp only [hut, if_false]
          exact hmem u
      · intro u hu
        by_cases hut : u = t
        · subst hut; exact hl
        · simp only [hut, if_false] at hu
          exact hcs u hu
      · intro u hu
        have hut : u = t := by
          rw [hl] at hu
          exact (Option.some.inj hu).symm
        subst hut
        simp [atCS]
      · intro hnone
        rw [hnone] at hl
        exact absurd hl (by simp)
      · intro u hu
        have hut : u = t := by
          rw [hl] at hu
          exact (Option.some.inj hu).symm
        subst hut
        refine ⟨?_, ?_, ?_, fun _ => ⟨hcnt, hout⟩⟩ <;>
          · intro habs
            simp only [if_pos rfl] at habs
            exact absurd habs (by simp)
    | unlock =>
      have hl : s.lock = some t := hcs t (by simp [hpc, atCS])
      obtain ⟨hcnt, hout⟩ := (hheld t hl).2.2.2 hpc
      have hstep : microStep n evs s t =
          { s with lock := none
                   pcs := fun u => if u = t then Pc.done else s.pcs u } := by
        simp [microStep, htn, hpc]
      rw [hstep]
      refine ⟨hnd, hlt, ?_, ?_, ?_, ?_, ?_, ?_⟩
      · intro u hu
        have hut : u ≠ t := by omega
        simp only [hut, if_false]
        exact hge u hu
      · intro u
        by_cases hut : u = t
        · subst hut
          simp only [if_pos rfl]
          rw [hmem u, hpc]
          simp
        · simp only [hut, if_false]
          exact hmem u
      · intro u hu
        by_cases hut : u = t
        · subst hut
          simp [atCS] at hu
        · simp only [hut, if_false] at hu
          rw [hcs u hu] at hl
          have := Option.some.inj hl
          exact absurd this hut
      · intro u hu
        exact absurd hu (by simp)
      · intro _
        exact ⟨hcnt, hout⟩
      · intro u hu
        exact absurd hu (by simp)
    | done =>
      have hstep : microStep n evs s t = s := by
        simp [microStep, htn, hpc]
      rw [hstep]
      exact ⟨hnd, hlt, hge, hmem, hcs, hown, hfree, hheld⟩
  · have hstep : microStep n evs s t = s := by
      simp [microStep, htn]
    rw [hstep]
    exact ⟨hnd, hlt, hge, hmem, hcs, hown, hfree, hheld⟩

theorem cinv_run (n : Nat) (evs : Nat → ProfileResult) (sched : List Nat) :
    ∀ s : CState, CInv n evs s → CInv n evs (runSched n evs s sched) := by
  induction sched with
  | nil => intro s h; exact h
  | cons t rest ih =>
    intro s h
    exact ih (microStep n evs s t) (cinv_step n evs s t h)

/-- C2: in the fine-grained model of concurrent `write_profile` calls —
where each thread holds the single collector lock across the whole
check-counter, write-bytes, increment-counter sequence, as the mutex guard
in the source does — every schedule that lets all `n` threads finish
yields the comma-separated concatenation of the `n` complete event objects
in some order (a permutation of the threads), so the bytes of two
different event objects are never interleaved, and the shared counter ends
exactly at `n`. -/
theorem C2_no_interleaving (n : Nat) (evs : Nat → ProfileResult)
    (sched : List Nat)
    (hdone : ∀ t, t < n → (runSched n evs initC sched).pcs t = Pc.done) :
    (runSched n evs initC sched).ghost.Perm (List.range n) ∧
    (runSched n evs initC sched).out =
      joinComma ((runSched n evs initC sched).ghost.map fun t => profileJson (evs t)) ∧
    (runSched n evs initC sched).count = n := by
  obtain ⟨hnd, hlt, hge, hmem, hcs, hown, hfree, hheld⟩ :=
    cinv_run n evs sched initC (cinv_init n evs)
  have hlock : (runSched n evs initC sched).lock = none := by
    cases hl : (runSched n evs initC sched).lock with
    | none => rfl
    | some u =>
      have hat := hown u hl
      by_cases hun : u < n
      · rw [hdone u hun] at hat
        simp [atCS] at hat
      · rw [hge u (by omega)] at hat
        simp [atCS] at hat
  obtain ⟨hcnt, hout⟩ := hfree hlock
  have hperm : (runSched n evs initC sched).ghost.Perm (List.range n) := by
    rw [List.perm_ext_iff_of_nodup hnd (List.nodup_range n)]
    intro a
    rw [List.mem_range]
    constructor
    · exact hlt a
    · intro ha
      rw [hmem a, hdone a ha]
      simp
  refine ⟨hperm, ?_, ?_⟩
  · rw [hout]; rfl
  · rw [hcnt, hperm.length_eq, List.length_range]

/-- C2 witness: two threads, scheduled strictly one after the other only
because this schedule lets both finish; the theorem applies to every
completing schedule. -/
theorem C2_no_interleaving_witness :
    (runSched 2 (fun t => { name := "w", start := 0, end_ := 1, thread_id := t })
        initC [0, 0, 0, 0, 0, 1, 1, 1, 1, 1]).ghost.Perm (List.range 2) ∧
    (runSched 2 (fun t => { name := "w", start := 0, end_ := 1, thread_id := t })
        initC [0, 0, 0, 0, 0, 1, 1, 1, 1, 1]).out =
      joinComma ((runSched 2 (fun t => { name := "w", start := 0, end_ := 1, thread_id := t })
        initC [0, 0, 0, 0, 0, 1, 1, 1, 1, 1]).ghost.map
          fun t => profileJson ((fun t => { name := "w", start := 0, end_ := 1, thread_id := t } : Nat → ProfileResult) t)) ∧
    (runSched 2 (fun t => { name := "w", start := 0, end_ := 1, thread_id := t })
        initC [0, 0, 0, 0, 0, 1, 1, 1, 1, 1]).count = 2 :=
  C2_no_interleaving 2 (fun t => { name := "w", start := 0, end_ := 1, thread_id := t })
    [0, 0, 0, 0, 0, 1, 1, 1, 1, 1] (by decide)
